import Mathlib

/-!
Shallow embedding of `planner.py`, a CLI tool that generates a 1-week
learning plan by orchestrating two model calls (a Generator agent and a
Critic agent) and parsing the Critic's structured reply.

Strings are modelled as `List Char` in the core text-processing functions
(the Python `str` operations `strip`, `split`, `replace`, `lower` and the
regex substitutions of `slugify` are translated to explicit recursive
functions on character lists); character classes (`str.lower`, `\w`, `\s`)
are modelled on the ASCII range, matching the Python semantics for ASCII
text.  The two remote model calls are modelled as oracle fields of a
`ModelClient` record returning `Except ApiError`, mirroring the
`anthropic` client's streaming and single-response entry points and its
exception taxonomy.
-/

namespace Planner

/-- Python's ASCII whitespace, as recognised by `str.strip()` and `\s`. -/
def isPyWhitespace (c : Char) : Bool :=
  c == ' ' || c == '\t' || c == '\n' || c == '\r' || c == '\x0b' || c == '\x0c'

/-- `l` with leading and trailing characters satisfying `p` removed; the
common shape of Python's `str.strip()` and `str.strip("-")`. -/
def stripBoth (p : Char → Bool) (l : List Char) : List Char :=
  List.rdropWhile p (List.dropWhile p l)

/-- Python `str.strip()` (ASCII whitespace). -/
def pyStrip (l : List Char) : List Char :=
  stripBoth isPyWhitespace l

/-- Python `str.strip("-")`. -/
def stripHyphens (l : List Char) : List Char :=
  stripBoth (fun c => c == '-') l

/-- Python `full_text.split(sep, 1)` combined with the `sep in full_text`
test: `some (before, after)` when `sep` occurs in `l` (split at the first
occurrence), `none` when it does not. -/
def splitFirst (sep : List Char) : List Char → Option (List Char × List Char)
  | [] => if sep.isPrefixOf ([] : List Char) then some ([], []) else none
  | c :: cs =>
    if sep.isPrefixOf (c :: cs) then
      some ([], (c :: cs).drop sep.length)
    else
      match splitFirst sep cs with
      | none => none
      | some (b, a) => some (c :: b, a)

/-- Worker for `removeOcc`: scans left to right; a positive skip count
means we are inside a previously matched occurrence being deleted. -/
def removeOccGo (sep : List Char) : Nat → List Char → List Char
  | _, [] => []
  | k + 1, _ :: cs => removeOccGo sep k cs
  | 0, c :: cs =>
    if sep.isPrefixOf (c :: cs) then
      removeOccGo sep (sep.length - 1) cs
    else
      c :: removeOccGo sep 0 cs

/-- Python `text.replace(sep, "")`: delete every occurrence of `sep`,
scanning left to right, non-overlapping. -/
def removeOcc (sep l : List Char) : List Char :=
  removeOccGo sep 0 l

/-- The literal marker `"## Refined Plan"` that begins the refined-plan
section of the Critic's reply (`planner.py`, `run_critic`). -/
def markerL : List Char := "## Refined Plan".toList

/-- The literal heading `"## Assessment"` stripped from the text that
precedes the marker (`planner.py`, `run_critic`). -/
def assessHeadingL : List Char := "## Assessment".toList

/-- The parse of the Critic's raw reply performed inline in `run_critic`
(`planner.py`, lines 232–244): split on the first `"## Refined Plan"`;
when present, the part before it with every `"## Assessment"` removed and
whitespace-trimmed is the assessment and the trimmed part after it is the
refined plan; when absent, the assessment is empty and the whole trimmed
reply is the refined plan. -/
def parseCriticReply (full_text : List Char) : List Char × List Char :=
  match splitFirst markerL full_text with
  | some (before, after) =>
      (pyStrip (removeOcc assessHeadingL before), pyStrip after)
  | none => ([], pyStrip full_text)

/-- Python `\w` on ASCII: letters, digits, underscore. -/
def isWordChar (c : Char) : Bool :=
  c.isAlphanum || c == '_'

/-- The character class `[\s_-]` of `slugify`'s second substitution. -/
def isCollapseChar (c : Char) : Bool :=
  isPyWhitespace c || c == '_' || c == '-'

/-- Worker for the substitution `re.sub(r"[\s_-]+", "-", text)`: the flag
records whether we are inside a run for which `'-'` was already emitted. -/
def collapseGo : Bool → List Char → List Char
  | _, [] => []
  | inRun, c :: cs =>
    if isCollapseChar c then
      if inRun then collapseGo true cs else '-' :: collapseGo true cs
    else
      c :: collapseGo false cs

/-- `slugify` (`planner.py`, lines 169–174): lower-case and strip, delete
characters outside `[\w\s-]`, collapse `[\s_-]` runs to single hyphens,
truncate to 50 characters, strip hyphens from both ends. -/
def slugify (text : List Char) : List Char :=
  let lowered := pyStrip (text.map Char.toLower)
  let kept := lowered.filter fun c => isWordChar c || isPyWhitespace c || c == '-'
  stripHyphens ((collapseGo false kept).take 50)

/-- One familiarity level of the catalog (`FAMILIARITY_LEVELS`). -/
structure FamiliarityLevel where
  label : String
  description : String
  context : String
deriving DecidableEq

/-- The fixed three-entry familiarity catalog (`planner.py`, lines
107–141). -/
def FAMILIARITY_LEVELS : List FamiliarityLevel :=
  [ { label := "Novice"
    , description := "Never worked with it before"
    , context :=
        "The learner has never worked with this topic before. " ++
        "Assume zero prior knowledge of the topic itself, though they are a competent developer. " ++
        "Day 1 must build confidence through pure concepts — no setup, no code. " ++
        "Every term introduced must be briefly defined. " ++
        "By the end of the week they should feel genuinely ready to contribute to a real codebase." }
  , { label := "A little familiar"
    , description := "Seen it or done a quick tutorial"
    , context :=
        "The learner has a passing familiarity — perhaps followed a getting-started tutorial " ++
        "or read an overview — but has never built anything real with this topic. " ++
        "Day 1 should consolidate and sharpen existing mental models rather than re-explain basics. " ++
        "Pick up pace gradually from Day 2 onward, filling gaps and building toward production patterns. " ++
        "By the end of the week they should feel confident enough to own a feature in a professional project." }
  , { label := "Quite familiar"
    , description := "Used it in small projects or prototypes"
    , context :=
        "The learner has used this topic in small projects and understands the core mechanics. " ++
        "Day 1 should challenge and deepen existing knowledge — focus on mental models, edge cases, " ++
        "or common misconceptions rather than re-covering ground they already know. " ++
        "Progress quickly toward advanced patterns, best practices, and production-readiness. " ++
        "By the end of the week they should feel ready to architect and lead work in this area." } ]

/-- `GENERATOR_SYSTEM_PROMPT` (`planner.py`, lines 30–47). -/
def GENERATOR_SYSTEM_PROMPT : String :=
  "You are an expert learning coach and curriculum designer specialising in onboarding " ++
  "experienced developers into new topics. " ++
  "Your audience is an intermediate developer — comfortable with code, abstractions, and " ++
  "system design — but completely new to the requested topic. " ++
  "Design every plan so difficulty increases slowly and consistently across all five days: " ++
  "Day 1 is purely conceptual and confidence-building (no code, no configuration); " ++
  "Day 2 introduces the simplest hands-on 'hello world' style task; " ++
  "Days 3 and 4 add one new concept per day, each building directly on the last; " ++
  "Day 5 ties everything together with a small but realistic project that mirrors " ++
  "the kind of task found in a professional or enterprise codebase — leaving the learner " ++
  "ready to start contributing to production-grade software. " ++
  "Never introduce more than one new concept per day. " ++
  "Never make a day feel overwhelming. " ++
  "Always explain why each concept matters before showing how it works. " ++
  "Be concise but complete: finishing all five days is the top priority. " ++
  "Never sacrifice coverage of a day for extra detail on an earlier one."

/-- `GENERATOR_PROMPT_TEMPLATE` (`planner.py`, lines 49–66) applied to its
placeholders, exactly as `str.format` interpolates them in
`run_generator`. -/
def GENERATOR_PROMPT_TEMPLATE (topic familiarity_label familiarity_description
    familiarity_context : String) : String :=
  "Create a structured 1-week learning plan for the topic: \"" ++ topic ++ "\"\n\n" ++
  "Learner familiarity: " ++ familiarity_label ++ " — " ++ familiarity_description ++ "\n" ++
  familiarity_context ++ "\n\n" ++
  "Cover Monday through Friday only. For each day provide exactly:\n\n" ++
  "**Day: <Day name>**\n" ++
  "- Focus: <one specific aspect of " ++ topic ++ " to concentrate on that day>\n" ++
  "- Resources:\n" ++
  "  1. <Resource name> — <one-sentence description and where to find it>\n" ++
  "  2. <Resource name> — <one-sentence description and where to find it>\n" ++
  "- Exercise: <a small, concrete hands-on activity completable in 30–60 minutes>\n\n" ++
  "Build each day on the previous so the plan progresses logically and ends with the learner " ++
  "elevated in their understanding and ready to work confidently on real projects.\n"

/-- `CRITIC_SYSTEM_PROMPT` (`planner.py`, lines 70–83). -/
def CRITIC_SYSTEM_PROMPT : String :=
  "You are an expert learning plan critic. Your job is to rigorously evaluate a " ++
  "generated learning plan and produce a meaningfully improved version. " ++
  "Assess the plan on four criteria: " ++
  "(1) Difficulty progression — does it increase gradually across all five days without sudden spikes? " ++
  "(2) Resource quality — are the resources credible, specific, and genuinely useful rather than vague or generic? " ++
  "(3) Exercise practicality — can each exercise realistically be completed in 30–60 minutes " ++
  "and does it build real, transferable skill? " ++
  "(4) Confidence outcome — will someone who completes this plan feel genuinely ready to work " ++
  "professionally with the topic by Friday? " ++
  "Be specific and direct in your assessment. Name exactly what is weak and why. " ++
  "Then produce a refined plan that concretely fixes every issue you identified. " ++
  "The refined plan must use the same day-by-day format as the original."

/-- `CRITIC_PROMPT_TEMPLATE` (`planner.py`, lines 85–103) applied to its
placeholders, exactly as `str.format` interpolates them in `run_critic`. -/
def CRITIC_PROMPT_TEMPLATE (topic familiarity_label original_plan : String) : String :=
  "Below is a 1-week learning plan for the topic \"" ++ topic ++
  "\" written for a learner at the \"" ++ familiarity_label ++ "\" familiarity level.\n\n" ++
  "Evaluate it, then produce an improved version. Your response must use this exact structure " ++
  "with no text outside it:\n\n" ++
  "## Assessment\n" ++
  "<Your critique covering difficulty progression, resource credibility, exercise practicality, " ++
  "and confidence outcome. Be specific about what is weak and why.>\n\n" ++
  "## Refined Plan\n" ++
  "<The improved Monday–Friday plan using the same format as the original. " ++
  "Fix every issue raised in your assessment.>\n\n" ++
  "---\n" ++
  "Original plan:\n" ++
  original_plan ++ "\n"

/-- The exception taxonomy of the remote client caught in `main`
(`planner.py`, lines 353–368). -/
inductive ApiError where
  | authenticationError : ApiError
  | apiConnectionError : ApiError
  | rateLimitError : ApiError
  | apiStatusError : Nat → String → ApiError
deriving DecidableEq

/-- The two entry points of the remote model client consumed by the
pipeline: a streaming call returning the sequence of text chunks in
arrival order, and a single-response call returning one text blob.  Both
may fail with an `ApiError`, which the core never catches. -/
structure ModelClient where
  streamCall : String → String → Nat → Except ApiError (List String)
  createCall : String → String → Nat → Except ApiError String

/-- `max_tokens` of the Generator's streaming call (`planner.py`, line
200). -/
def generatorMaxTokens : Nat := 4096

/-- `max_tokens` of the Critic's single-response call (`planner.py`, line
227). -/
def criticMaxTokens : Nat := 8192

/-- The accumulation loop of `run_generator` (`planner.py`, lines
197–207): each arriving chunk is appended to the `chunks` list; the
`verbose` flag only controls printing and does not touch the list. -/
def accumulateChunks (_verbose : Bool) (text_stream : List String) : List String :=
  text_stream.foldl (fun chunks text => chunks ++ [text]) []

/-- `run_generator` (`planner.py`, lines 185–209): build the Generator
prompt, stream the model reply, and return the joined chunks. -/
def run_generator (client : ModelClient) (topic : String)
    (familiarity : FamiliarityLevel) (verbose : Bool) : Except ApiError String :=
  let prompt := GENERATOR_PROMPT_TEMPLATE topic familiarity.label
    familiarity.description familiarity.context
  match client.streamCall GENERATOR_SYSTEM_PROMPT prompt generatorMaxTokens with
  | .error e => .error e
  | .ok text_stream => .ok (String.join (accumulateChunks verbose text_stream))

/-- `run_critic` (`planner.py`, lines 212–244): build the Critic prompt
embedding the original plan, invoke the single-response call, and parse
the reply into `(assessment, refined_plan)`. -/
def run_critic (client : ModelClient) (topic : String)
    (familiarity : FamiliarityLevel) (original_plan : String) :
    Except ApiError (String × String) :=
  let prompt := CRITIC_PROMPT_TEMPLATE topic familiarity.label original_plan
  match client.createCall CRITIC_SYSTEM_PROMPT prompt criticMaxTokens with
  | .error e => .error e
  | .ok full_text =>
      let p := parseCriticReply full_text.toList
      .ok (p.1.asString, p.2.asString)

/-- The triple produced by the two-stage pipeline. -/
structure PipelineResult where
  original_plan : String
  assessment : String
  refined_plan : String
deriving DecidableEq

/-- The core of `generate_learning_plan` (`planner.py`, lines 248–270):
run the Generator, then run the Critic on the Generator's full output;
any `ApiError` raised by either call propagates unchanged and aborts the
pipeline (display and persistence are external collaborators and are not
modelled). -/
def generate_learning_plan (client : ModelClient) (topic : String)
    (familiarity : FamiliarityLevel) (verbose : Bool) :
    Except ApiError PipelineResult :=
  match run_generator client topic familiarity verbose with
  | .error e => .error e
  | .ok original_plan =>
      match run_critic client topic familiarity original_plan with
      | .error e => .error e
      | .ok (assessment, refined_plan) =>
          .ok { original_plan := original_plan
              , assessment := assessment
              , refined_plan := refined_plan }

end Planner

namespace Planner

/-! ### Helper lemmas about the text-processing primitives -/

theorem toList_append (s t : String) : (s ++ t).toList = s.toList ++ t.toList := by
  simp [String.toList]

theorem mem_of_mem_dropWhile {p : Char → Bool} {l : List Char} {c : Char}
    (h : c ∈ List.dropWhile p l) : c ∈ l :=
  (List.dropWhile_suffix p).sublist.subset h

theorem mem_of_mem_stripBoth {p : Char → Bool} {l : List Char} {c : Char}
    (h : c ∈ stripBoth p l) : c ∈ l := by
  unfold stripBoth at h
  have h' := ( List.rdropWhile_prefix p (List.dropWhile p l)).sublist.subset h
  exact mem_of_mem_dropWhile h'

theorem stripBoth_eq_nil_iff {p : Char → Bool} {l : List Char} :
    stripBoth p l = [] ↔ ∀ c ∈ l, p c := by
  unfold stripBoth
  rw [List.rdropWhile_eq_nil_iff]
  constructor
  · intro h c hc
    have hsplit := List.takeWhile_append_dropWhile (p := p) (l := l)
    rcases List.mem_append.mp (hsplit ▸ hc) with h1 | h2
    · exact List.mem_takeWhile_imp h1
    · exact h c h2
  · intro h c hc
    exact h c (mem_of_mem_dropWhile hc)

theorem dropWhile_eq_cons_head {p : Char → Bool} {l : List Char} {c : Char} {t : List Char}
    (h : List.dropWhile p l = c :: t) : p c = false := by
  induction l with
  | nil => simp [List.dropWhile] at h
  | cons a l ih =>
    rw [List.dropWhile_cons] at h
    by_cases hp : p a
    · rw [if_pos hp] at h
      exact ih h
    · rw [if_neg hp] at h
      obtain ⟨h1, _⟩ := List.cons.inj h
      subst h1
      simpa using hp

theorem stripBoth_head {p : Char → Bool} {l : List Char} {c : Char} {t : List Char}
    (h : stripBoth p l = c :: t) : p c = false := by
  rw [stripBoth] at h
  obtain ⟨r, hr⟩ := List.rdropWhile_prefix p (List.dropWhile p l)
  rw [h] at hr
  have hd : List.dropWhile p l = c :: (t ++ r) := by
    rw [← hr]; simp
  exact dropWhile_eq_cons_head hd

theorem stripBoth_getLast {p : Char → Bool} {l : List Char} {c : Char} {t : List Char}
    (h : stripBoth p l = t ++ [c]) : p c = false := by
  rw [stripBoth, List.rdropWhile] at h
  have h' : List.dropWhile p (List.dropWhile p l).reverse = c :: t.reverse := by
    rw [List.reverse_eq_iff] at h
    rw [h]
    simp
  exact dropWhile_eq_cons_head h'

theorem stripBoth_decomp (p : Char → Bool) (l : List Char) :
    ∃ w1 w2, (∀ c ∈ w1, p c) ∧ (∀ c ∈ w2, p c) ∧ l = w1 ++ stripBoth p l ++ w2 := by
  refine ⟨List.takeWhile p l, List.rtakeWhile p (List.dropWhile p l), ?_, ?_, ?_⟩
  · intro c hc; exact List.mem_takeWhile_imp hc
  · intro c hc; exact List.mem_rtakeWhile_imp hc
  · unfold stripBoth
    have h1 : List.rdropWhile p (List.dropWhile p l) ++ List.rtakeWhile p (List.dropWhile p l)
        = List.dropWhile p l := by
      rw [List.rdropWhile, List.rtakeWhile, ← List.reverse_append,
        List.takeWhile_append_dropWhile, List.reverse_reverse]
    rw [List.append_assoc, h1, List.takeWhile_append_dropWhile]

theorem stripBoth_length_le (p : Char → Bool) (l : List Char) :
    (stripBoth p l).length ≤ l.length := by
  obtain ⟨w1, w2, _, _, hdecomp⟩ := stripBoth_decomp p l
  have := congrArg List.length hdecomp
  simp only [List.length_append] at this
  omega

end Planner

namespace Planner

theorem collapseGo_mem {l : List Char} {c : Char} :
    ∀ {b : Bool}, c ∈ collapseGo b l → c = '-' ∨ (c ∈ l ∧ isCollapseChar c = false) := by
  induction l with
  | nil => intro b h; simp [collapseGo] at h
  | cons a l ih =>
    intro b h
    rw [collapseGo] at h
    by_cases ha : isCollapseChar a
    · rw [if_pos ha] at h
      cases b with
      | true =>
        rcases ih h with h1 | ⟨h2, h3⟩
        · exact Or.inl h1
        · exact Or.inr ⟨List.mem_cons_of_mem a h2, h3⟩
      | false =>
        rcases List.mem_cons.mp h with h1 | h1
        · exact Or.inl h1
        · rcases ih h1 with h2 | ⟨h3, h4⟩
          · exact Or.inl h2
          · exact Or.inr ⟨List.mem_cons_of_mem a h3, h4⟩
    · rw [if_neg ha] at h
      rcases List.mem_cons.mp h with h1 | h1
      · subst h1
        exact Or.inr ⟨List.mem_cons_self c l, by simpa using ha⟩
      · rcases ih h1 with h2 | ⟨h3, h4⟩
        · exact Or.inl h2
        · exact Or.inr ⟨List.mem_cons_of_mem a h3, h4⟩

end Planner

namespace Planner

/-- Claim C7: `slugify` lower-cases its input (every output character other
than a hyphen is the `Char.toLower` image of an input character), keeps only
word characters and hyphens, truncates to at most 50 characters, and trims
leading and trailing hyphens; in particular
`slugify "Docker Compose & Kubernetes!" = "docker-compose-kubernetes"`. -/
theorem slugify_spec (l : List Char) :
    (slugify l).length ≤ 50 ∧
    (∀ c ∈ slugify l, c = '-' ∨ (c.isAlphanum ∧ ∃ c₀ ∈ l, c = Char.toLower c₀)) ∧
    (∀ c t, slugify l = c :: t → c ≠ '-') ∧
    (∀ c t, slugify l = t ++ [c] → c ≠ '-') ∧
    slugify "Docker Compose & Kubernetes!".toList = "docker-compose-kubernetes".toList := by
  refine ⟨?_, ?_, ?_, ?_, by decide⟩
  · unfold slugify stripHyphens
    refine le_trans (stripBoth_length_le _ _) ?_
    simp [List.length_take]
  · intro c hc
    unfold slugify stripHyphens at hc
    have h1 := mem_of_mem_stripBoth hc
    have h2 := List.take_subset 50 _ h1
    rcases collapseGo_mem h2 with h3 | ⟨h3, h4⟩
    · exact Or.inl h3
    · have h5 := List.mem_filter.mp h3
      obtain ⟨h6, h7⟩ := h5
      unfold isCollapseChar at h4
      simp only [Bool.or_eq_false_iff] at h4
      have h8 : isWordChar c = true := by
        simp only [h4.1.1, h4.2, Bool.or_false] at h7
        exact h7
      have h9 : c.isAlphanum = true := by
        unfold isWordChar at h8
        simp only [h4.1.2, Bool.or_false] at h8
        exact h8
      refine Or.inr ⟨h9, ?_⟩
      have h10 := mem_of_mem_stripBoth h6
      obtain ⟨c₀, hc₀, hmap⟩ := List.mem_map.mp h10
      exact ⟨c₀, hc₀, hmap.symm⟩
  · intro c t h
    unfold slugify stripHyphens at h
    have := stripBoth_head h
    simpa using this
  · intro c t h
    unfold slugify stripHyphens at h
    have := stripBoth_getLast h
    simpa using this

end Planner

namespace Planner

theorem isPrefixOf_true_iff {l₁ l₂ : List Char} : l₁.isPrefixOf l₂ = true ↔ l₁ <+: l₂ := by
  rw [ List.isPrefixOf_iff_prefix]

/-- `splitFirst` splits the list around the separator, and does so at the
first (leftmost) occurrence: any other decomposition has a longer prefix. -/
theorem splitFirst_some_eq {sep : List Char} :
    ∀ {l b a : List Char}, splitFirst sep l = some (b, a) →
      l = b ++ sep ++ a ∧ ∀ b' a', l = b' ++ sep ++ a' → b.length ≤ b'.length := by
  intro l
  induction l with
  | nil =>
    intro b a h
    simp only [splitFirst] at h
    by_cases hp : sep.isPrefixOf ([] : List Char)
    · rw [if_pos hp] at h
      have hsep : sep = [] := by
        cases sep with
        | nil => rfl
        | cons s ss => simp [List.isPrefixOf] at hp
      obtain ⟨hb, ha⟩ := Prod.mk.injEq .. ▸ Option.some.inj h
      subst hb; subst ha
      refine ⟨by simp [hsep], fun b' a' _ => Nat.zero_le _⟩
    · rw [if_neg hp] at h
      exact absurd h (by simp)
  | cons c cs ih =>
    intro b a h
    simp only [splitFirst] at h
    by_cases hp : sep.isPrefixOf (c :: cs)
    · rw [if_pos hp] at h
      obtain ⟨t, ht⟩ := isPrefixOf_true_iff.mp hp
      obtain ⟨hb, ha⟩ := Prod.mk.injEq .. ▸ Option.some.inj h
      subst hb
      have hdrop : (c :: cs).drop sep.length = t := by
        rw [← ht, List.drop_left]
      rw [hdrop] at ha
      subst ha
      exact ⟨by rw [← ht]; simp, fun b' a' _ => Nat.zero_le _⟩
    · rw [if_neg hp] at h
      cases hrec : splitFirst sep cs with
      | none => rw [hrec] at h; simp at h
      | some pr =>
        obtain ⟨b₀, a₀⟩ := pr
        rw [hrec] at h
        simp only [Option.some.injEq, Prod.mk.injEq] at h
        obtain ⟨hb, ha⟩ := h
        subst hb; subst ha
        obtain ⟨heq, hmin⟩ := ih hrec
        refine ⟨by rw [List.cons_append, List.cons_append, ← heq], ?_⟩
        intro b' a' hl
        cases b' with
        | nil =>
          exfalso
          simp only [List.nil_append] at hl
          exact hp (isPrefixOf_true_iff.mpr ⟨a', hl.symm⟩)
        | cons c' b'' =>
          simp only [List.cons_append, List.cons.injEq] at hl
          obtain ⟨-, hl2⟩ := hl
          simpa using Nat.succ_le_succ (hmin b'' a' hl2)

theorem not_infix_of_splitFirst_eq_none {sep : List Char} :
    ∀ {l : List Char}, splitFirst sep l = none → ¬ sep <:+: l := by
  intro l
  induction l with
  | nil =>
    intro h hinf
    simp only [splitFirst] at h
    have hsep : sep = [] := List.infix_nil.mp hinf
    subst hsep
    simp [List.isPrefixOf] at h
  | cons c cs ih =>
    intro h hinf
    simp only [splitFirst] at h
    by_cases hp : sep.isPrefixOf (c :: cs)
    · rw [if_pos hp] at h; simp at h
    · rw [if_neg hp] at h
      rcases List.infix_cons_iff.mp hinf with h1 | h1
      · exact hp (isPrefixOf_true_iff.mpr h1)
      · cases hrec : splitFirst sep cs with
        | none => exact ih hrec h1
        | some pr => rw [hrec] at h; rcases pr with ⟨b₀, a₀⟩; simp at h

end Planner

namespace Planner

theorem splitFirst_eq_none_of_not_infix {sep l : List Char} (h : ¬ sep <:+: l) :
    splitFirst sep l = none := by
  cases hrec : splitFirst sep l with
  | none => rfl
  | some pr =>
    obtain ⟨b, a⟩ := pr
    obtain ⟨heq, -⟩ := splitFirst_some_eq hrec
    exact absurd ⟨b, a, heq.symm⟩ h

theorem infix_of_splitFirst_some {sep l b a : List Char}
    (h : splitFirst sep l = some (b, a)) : sep <:+: l := by
  obtain ⟨heq, -⟩ := splitFirst_some_eq h
  exact ⟨b, a, heq.symm⟩

theorem splitFirst_self {sep y : List Char} : splitFirst sep (sep ++ y) = some ([], y) := by
  cases h2 : sep ++ y with
  | nil =>
    obtain ⟨hs, hy⟩ := List.append_eq_nil.mp h2
    subst hs; subst hy
    simp [splitFirst, List.isPrefixOf]
  | cons c cs =>
    simp only [splitFirst]
    have hp : sep.isPrefixOf (c :: cs) = true := by
      rw [← h2]
      exact isPrefixOf_true_iff.mpr ⟨y, rfl⟩
    rw [if_pos hp, ← h2, List.drop_left]

/-- If no occurrence of `sep` starts strictly inside `u`, then `splitFirst`
splits exactly at the boundary after `u`. -/
theorem splitFirst_no_early {sep : List Char} :
    ∀ {u y : List Char},
      (∀ i, i < u.length → sep.isPrefixOf ((u ++ (sep ++ y)).drop i) = false) →
      splitFirst sep (u ++ (sep ++ y)) = some (u, y) := by
  intro u
  induction u with
  | nil =>
    intro y _
    rw [List.nil_append]
    exact splitFirst_self
  | cons c u' ih =>
    intro y h
    have h0 := h 0 (by simp)
    simp only [List.drop_zero] at h0
    rw [List.cons_append]
    rw [List.cons_append] at h0
    simp only [splitFirst]
    rw [if_neg (by simp [h0])]
    have ih' := ih (y := y) fun i hi => by
      have := h (i + 1) (by simpa using Nat.succ_lt_succ hi)
      rw [List.cons_append, List.drop_succ_cons] at this
      exact this
    rw [ih']

theorem marker_no_match_noHash {u r : List Char} (hu : ∀ c ∈ u, c ≠ '#')
    {i : Nat} (hi : i < u.length) : markerL.isPrefixOf ((u ++ r).drop i) = false := by
  have hdrop : (u ++ r).drop i = u.drop i ++ r := by
    rw [List.drop_append_eq_append_drop, Nat.sub_eq_zero_of_le (le_of_lt hi), List.drop_zero]
  rw [hdrop]
  have hne : u.drop i ≠ [] := by
    intro hnil
    have hlen := congrArg List.length hnil
    rw [List.length_drop] at hlen
    simp at hlen
    omega
  obtain ⟨c, t, hct⟩ := List.exists_cons_of_ne_nil hne
  rw [hct, List.cons_append]
  have hc : c ∈ u := List.drop_subset i u (by rw [hct]; exact List.mem_cons_self c t)
  have hbeq : (('#' : Char) == c) = false :=
    beq_eq_false_iff_ne.mpr fun hEq => hu c hc hEq.symm
  have hm : markerL = '#' :: "# Refined Plan".toList := rfl
  rw [hm]
  simp [List.isPrefixOf, hbeq]

theorem marker_no_early_heading {x y : List Char} (hx : ∀ c ∈ x, c ≠ '#') :
    ∀ i, i < (assessHeadingL ++ x).length →
      markerL.isPrefixOf (((assessHeadingL ++ x) ++ (markerL ++ y)).drop i) = false := by
  intro i hi
  have hlenH : assessHeadingL.length = 13 := rfl
  rw [List.append_assoc]
  by_cases h13 : i < 13
  · have hdrop : (assessHeadingL ++ (x ++ (markerL ++ y))).drop i
        = assessHeadingL.drop i ++ (x ++ (markerL ++ y)) := by
      rw [List.drop_append_eq_append_drop, Nat.sub_eq_zero_of_le (by omega), List.drop_zero]
    rw [hdrop]
    interval_cases i <;> simp [assessHeadingL, markerL, List.isPrefixOf]
  · have hxlen : (assessHeadingL ++ x).length = 13 + x.length := by
      rw [List.length_append, hlenH]
    have hi' : i - 13 < x.length := by omega
    have hdrop : (assessHeadingL ++ (x ++ (markerL ++ y))).drop i
        = (x ++ (markerL ++ y)).drop (i - 13) := by
      rw [List.drop_append_eq_append_drop]
      have hnil : assessHeadingL.drop i = [] := by
        apply List.drop_eq_nil_of_le
        omega
      rw [hnil, List.nil_append, hlenH]
    rw [hdrop]
    exact marker_no_match_noHash hx hi'

end Planner

namespace Planner

theorem removeOccGo_skip {sep : List Char} :
    ∀ (d rest : List Char), removeOccGo sep d.length (d ++ rest) = removeOccGo sep 0 rest := by
  intro d
  induction d with
  | nil => intro rest; rfl
  | cons c d' ih =>
    intro rest
    simp only [List.length_cons, List.cons_append]
    rw [removeOccGo]
    exact ih rest

theorem heading_isPrefixOf_false_of_not_hash {c : Char} (hc : c ≠ '#') (t : List Char) :
    assessHeadingL.isPrefixOf (c :: t) = false := by
  have hbeq : (('#' : Char) == c) = false :=
    beq_eq_false_iff_ne.mpr fun hEq => hc hEq.symm
  have hh : assessHeadingL = '#' :: "# Assessment".toList := rfl
  rw [hh]
  simp [List.isPrefixOf, hbeq]

theorem removeOccGo_noHash_append {x : List Char} (hx : ∀ c ∈ x, c ≠ '#') (rest : List Char) :
    removeOccGo assessHeadingL 0 (x ++ rest) = x ++ removeOccGo assessHeadingL 0 rest := by
  induction x with
  | nil => simp
  | cons c x' ih =>
    have hc : c ≠ '#' := hx c (List.mem_cons_self c x')
    rw [List.cons_append, removeOccGo,
      if_neg (by simp [heading_isPrefixOf_false_of_not_hash hc])]
    rw [ih fun d hd => hx d (List.mem_cons_of_mem c hd), List.cons_append]

theorem removeOccGo_match {sep : List Char} {c : Char} {cs : List Char}
    (hp : sep.isPrefixOf (c :: cs) = true) :
    removeOccGo sep 0 (c :: cs) = removeOccGo sep (sep.length - 1) cs := by
  simp only [removeOccGo]
  rw [if_pos hp]

theorem removeOccGo_heading (rest : List Char) :
    removeOccGo assessHeadingL 0 (assessHeadingL ++ rest) = removeOccGo assessHeadingL 0 rest := by
  have hc : assessHeadingL ++ rest = '#' :: ("# Assessment".toList ++ rest) := rfl
  have hp : assessHeadingL.isPrefixOf ('#' :: ("# Assessment".toList ++ rest)) = true :=
    isPrefixOf_true_iff.mpr ⟨rest, hc.symm⟩
  rw [hc, removeOccGo_match hp]
  have hlen : assessHeadingL.length - 1 = ("# Assessment".toList).length := rfl
  rw [hlen]
  exact removeOccGo_skip "# Assessment".toList rest

theorem removeOcc_noHash {x : List Char} (hx : ∀ c ∈ x, c ≠ '#') :
    removeOcc assessHeadingL x = x := by
  have h := removeOccGo_noHash_append hx []
  rw [List.append_nil] at h
  rw [removeOcc, h]
  simp [removeOccGo]

/-- Every (clean) occurrence of the assessment heading is deleted, however
many there are and wherever they sit. -/
theorem removeOcc_two_occurrences {x y z : List Char}
    (hx : ∀ c ∈ x, c ≠ '#') (hy : ∀ c ∈ y, c ≠ '#') (hz : ∀ c ∈ z, c ≠ '#') :
    removeOcc assessHeadingL (x ++ assessHeadingL ++ y ++ assessHeadingL ++ z) = x ++ y ++ z := by
  rw [removeOcc]
  rw [List.append_assoc, List.append_assoc, List.append_assoc]
  rw [removeOccGo_noHash_append hx, removeOccGo_heading]
  rw [removeOccGo_noHash_append hy, removeOccGo_heading]
  have hzz := removeOccGo_noHash_append hz []
  rw [List.append_nil] at hzz
  rw [hzz]
  simp [removeOccGo]

end Planner

namespace Planner

/-! ### Claim theorems about the Critic-reply parse -/

/-- Claim C1 (amended): when the marker is absent the parser falls back to
the entire trimmed raw reply, and in each branch the resulting
`refined_plan` is non-empty exactly when the relevant text (the whole
reply in the fallback, the text after the first marker otherwise)
contains a non-whitespace character; it is empty for an empty or
all-whitespace relevant text. -/
theorem refined_plan_emptiness (l : List Char) :
    (¬ markerL <:+: l →
      ((parseCriticReply l).2 = [] ↔ ∀ c ∈ l, isPyWhitespace c)) ∧
    (∀ b a, splitFirst markerL l = some (b, a) →
      ((parseCriticReply l).2 = [] ↔ ∀ c ∈ a, isPyWhitespace c)) := by
  constructor
  · intro h
    have hnone := splitFirst_eq_none_of_not_infix h
    simp only [parseCriticReply, hnone]
    exact stripBoth_eq_nil_iff
  · intro b a h
    simp only [parseCriticReply, h]
    exact stripBoth_eq_nil_iff

/-- Claim C1, counterexample to the unconditional non-emptiness invariant:
the empty raw reply (which contains no marker) parses to an empty
`refined_plan`. -/
theorem refined_plan_empty_on_empty_reply :
    (parseCriticReply ([] : List Char)).2 = [] := by decide

/-- Witness for `refined_plan_emptiness` at a concrete marker-free reply. -/
theorem refined_plan_emptiness_witness :
    ¬ markerL <:+: "a plan".toList ∧
    ((parseCriticReply "a plan".toList).2 = [] ↔ ∀ c ∈ "a plan".toList, isPyWhitespace c) :=
  ⟨by decide, (refined_plan_emptiness "a plan".toList).1 (by decide)⟩

/-- Claim C2: when the Critic's reply does not contain the marker,
`run_critic` succeeds (no error) with an empty assessment and the whole
whitespace-trimmed raw reply as the refined plan. -/
theorem run_critic_marker_absent (client : ModelClient) (topic : String)
    (familiarity : FamiliarityLevel) (original_plan raw : String)
    (hcall : client.createCall CRITIC_SYSTEM_PROMPT
      (CRITIC_PROMPT_TEMPLATE topic familiarity.label original_plan) criticMaxTokens
      = .ok raw)
    (hmark : ¬ markerL <:+: raw.toList) :
    run_critic client topic familiarity original_plan =
      .ok ("", (pyStrip raw.toList).asString) := by
  have hnone := splitFirst_eq_none_of_not_infix hmark
  simp only [run_critic, hcall, parseCriticReply, hnone]
  rfl

/-- Witness for `run_critic_marker_absent` with a concrete client whose
Critic reply carries no marker. -/
theorem run_critic_marker_absent_witness :
    run_critic
      { streamCall := fun _ _ _ => .ok []
      , createCall := fun _ _ _ => .ok " a decent plan, unstructured " }
      "Redis" { label := "Novice", description := "d", context := "c" } "plan" =
      .ok ("", (pyStrip " a decent plan, unstructured ".toList).asString) :=
  run_critic_marker_absent _ _ _ _ _ rfl (by decide)

/-- Claim C3: when the marker occurs in the reply, the reply decomposes as
`before ++ marker ++ after` with assessment the trimmed
heading-stripped `before` and refined plan the trimmed `after`; and a
reply that is exactly the marker followed by text yields an empty
assessment and the trimmed remainder. -/
theorem parse_marker_present (l : List Char) :
    (markerL <:+: l →
      ∃ b a, l = b ++ markerL ++ a ∧
        parseCriticReply l = (pyStrip (removeOcc assessHeadingL b), pyStrip a)) ∧
    (∀ a, parseCriticReply (markerL ++ a) = ([], pyStrip a)) := by
  constructor
  · intro hinf
    cases hsplit : splitFirst markerL l with
    | none => exact absurd hinf (not_infix_of_splitFirst_eq_none hsplit)
    | some pr =>
      obtain ⟨b, a⟩ := pr
      obtain ⟨heq, -⟩ := splitFirst_some_eq hsplit
      exact ⟨b, a, heq, by simp [parseCriticReply, hsplit]⟩
  · intro a
    have hsplit : splitFirst markerL (markerL ++ a) = some ([], a) := splitFirst_self
    simp [parseCriticReply, hsplit, removeOcc, removeOccGo, pyStrip, stripBoth]

/-- Witness for `parse_marker_present` at a concrete marked reply. -/
theorem parse_marker_present_witness :
    markerL <:+: "## Assessment ok## Refined Plan good".toList ∧
    ∃ b a, "## Assessment ok## Refined Plan good".toList = b ++ markerL ++ a ∧
      parseCriticReply "## Assessment ok## Refined Plan good".toList =
        (pyStrip (removeOcc assessHeadingL b), pyStrip a) :=
  ⟨by decide, (parse_marker_present _).1 (by decide)⟩

end Planner

namespace Planner

theorem splitFirst_heading_block {x y : List Char} (hx : ∀ c ∈ x, c ≠ '#') :
    splitFirst markerL (assessHeadingL ++ x ++ markerL ++ y) = some (assessHeadingL ++ x, y) := by
  have h := @splitFirst_no_early markerL (assessHeadingL ++ x) y
    (marker_no_early_heading hx)
  simpa [List.append_assoc] using h

theorem removeOcc_heading_block {x : List Char} (hx : ∀ c ∈ x, c ≠ '#') :
    removeOcc assessHeadingL (assessHeadingL ++ x) = x := by
  rw [removeOcc, removeOccGo_heading]
  have h := removeOcc_noHash hx
  rw [removeOcc] at h
  exact h

theorem intercalate_one (sep x : List Char) : List.intercalate sep [x] = x := by
  simp [List.intercalate, List.intersperse]

theorem intercalate_cons_of_ne_nil (sep x : List Char) {xs : List (List Char)}
    (h : xs ≠ []) :
    List.intercalate sep (x :: xs) = x ++ sep ++ List.intercalate sep xs := by
  cases xs with
  | nil => exact absurd rfl h
  | cons y ys => simp [List.intercalate, List.intersperse, List.append_assoc]

/-- Every list of characters is an interleaving of the occurrences that
`removeOcc` deletes with the text it retains: the input is the retained
pieces re-joined with the heading, and the output is their plain join. -/
theorem removeOcc_decomp (b : List Char) :
    ∃ ps : List (List Char), ps ≠ [] ∧ b = List.intercalate assessHeadingL ps ∧
      removeOcc assessHeadingL b = ps.join := by
  suffices h : ∀ n (b : List Char), b.length ≤ n →
      ∃ ps : List (List Char), ps ≠ [] ∧ b = List.intercalate assessHeadingL ps ∧
        removeOcc assessHeadingL b = ps.join from h b.length b le_rfl
  intro n
  induction n with
  | zero =>
    intro b hb
    have hbnil : b = [] := List.eq_nil_of_length_eq_zero (Nat.le_zero.mp hb)
    subst hbnil
    exact ⟨[[]], by simp, by simp [List.intercalate, List.intersperse],
      by simp [removeOcc, removeOccGo]⟩
  | succ n ih =>
    intro b hb
    cases b with
    | nil =>
      exact ⟨[[]], by simp, by simp [List.intercalate, List.intersperse],
        by simp [removeOcc, removeOccGo]⟩
    | cons c cs =>
      by_cases hp : assessHeadingL.isPrefixOf (c :: cs)
      · obtain ⟨rest, hrest⟩ := isPrefixOf_true_iff.mp hp
        have hrlen : rest.length ≤ n := by
          have hl := congrArg List.length hrest
          have h13 : assessHeadingL.length = 13 := rfl
          rw [List.length_append, h13, List.length_cons] at hl
          have hb' : cs.length + 1 ≤ n + 1 := by simpa using hb
          omega
        obtain ⟨ps, hne, hbd, hrd⟩ := ih rest hrlen
        refine ⟨[] :: ps, by simp, ?_, ?_⟩
        · rw [intercalate_cons_of_ne_nil _ _ hne, ← hbd]
          simp only [List.nil_append]
          exact hrest.symm
        · rw [removeOcc, ← hrest, removeOccGo_heading]
          have hrd' := hrd
          rw [removeOcc] at hrd'
          rw [hrd']
          simp
      · have hcs : cs.length ≤ n := by
          have hb' : cs.length + 1 ≤ n + 1 := by simpa using hb
          omega
        obtain ⟨ps, hne, hbd, hrd⟩ := ih cs hcs
        obtain ⟨p0, pr, rfl⟩ : ∃ p0 pr, ps = p0 :: pr := by
          cases ps with
          | nil => exact absurd rfl hne
          | cons p0 pr => exact ⟨p0, pr, rfl⟩
        have hremove : removeOcc assessHeadingL (c :: cs) =
            c :: removeOcc assessHeadingL cs := by
          rw [removeOcc, removeOcc]
          simp only [removeOccGo]
          rw [if_neg hp]
        refine ⟨(c :: p0) :: pr, by simp, ?_, ?_⟩
        · cases pr with
          | nil =>
            rw [intercalate_one] at hbd
            rw [intercalate_one, hbd]
          | cons q qs =>
            rw [intercalate_cons_of_ne_nil _ _ (by simp)]
            rw [intercalate_cons_of_ne_nil _ _ (by simp)] at hbd
            rw [hbd]
            simp [List.append_assoc]
        · rw [hremove, hrd]
          simp

/-- Claim C4: for every reply in which the marker occurs exactly once
(split at the first occurrence, no occurrence afterwards), parsing is
reconstructive: the text before the marker is exactly the parsed
assessment surrounded by whitespace with the deleted `"## Assessment"`
headings re-inserted at their original places, the text after the marker
is exactly the parsed refined plan surrounded by whitespace, and
re-assembling these parts with the marker reproduces the original reply —
no text other than the headings and surrounding whitespace is lost or
altered. -/
theorem parse_reconstruction (l b a : List Char)
    (hsplit : splitFirst markerL l = some (b, a))
    (honce : ¬ markerL <:+: a) :
    ∃ ps w1 w2 w3 w4,
      ps ≠ ([] : List (List Char)) ∧
      (∀ c ∈ w1, isPyWhitespace c) ∧ (∀ c ∈ w2, isPyWhitespace c) ∧
      (∀ c ∈ w3, isPyWhitespace c) ∧ (∀ c ∈ w4, isPyWhitespace c) ∧
      b = List.intercalate assessHeadingL ps ∧
      ps.join = w1 ++ (parseCriticReply l).1 ++ w2 ∧
      a = w3 ++ (parseCriticReply l).2 ++ w4 ∧
      l = List.intercalate assessHeadingL ps ++ markerL ++
        (w3 ++ (parseCriticReply l).2 ++ w4) := by
  obtain ⟨heq, -⟩ := splitFirst_some_eq hsplit
  have hparse : parseCriticReply l = (pyStrip (removeOcc assessHeadingL b), pyStrip a) := by
    simp [parseCriticReply, hsplit]
  obtain ⟨ps, hne, hbd, hrd⟩ := removeOcc_decomp b
  obtain ⟨w1, w2, h1, h2, hj⟩ := stripBoth_decomp isPyWhitespace (removeOcc assessHeadingL b)
  obtain ⟨w3, w4, h3, h4, ha⟩ := stripBoth_decomp isPyWhitespace a
  have hc1 : ps.join = w1 ++ (parseCriticReply l).1 ++ w2 := by
    calc ps.join = removeOcc assessHeadingL b := hrd.symm
      _ = w1 ++ stripBoth isPyWhitespace (removeOcc assessHeadingL b) ++ w2 := hj
      _ = w1 ++ (parseCriticReply l).1 ++ w2 := by simp only [hparse, pyStrip]
  have hc2 : a = w3 ++ (parseCriticReply l).2 ++ w4 := by
    calc a = w3 ++ stripBoth isPyWhitespace a ++ w4 := ha
      _ = w3 ++ (parseCriticReply l).2 ++ w4 := by simp only [hparse, pyStrip]
  refine ⟨ps, w1, w2, w3, w4, hne, h1, h2, h3, h4, hbd, hc1, hc2, ?_⟩
  conv_lhs => rw [heq]
  rw [← hbd, ← hc2]

/-- Witness for `parse_reconstruction` at a concrete reply whose marker
occurs exactly once, with hash characters in the free text and no leading
assessment heading. -/
theorem parse_reconstruction_witness :
    ∃ ps w1 w2 w3 w4,
      ps ≠ ([] : List (List Char)) ∧
      (∀ c ∈ w1, isPyWhitespace c) ∧ (∀ c ∈ w2, isPyWhitespace c) ∧
      (∀ c ∈ w3, isPyWhitespace c) ∧ (∀ c ∈ w4, isPyWhitespace c) ∧
      "Good start #1. ".toList = List.intercalate assessHeadingL ps ∧
      ps.join = w1 ++
        (parseCriticReply "Good start #1. ## Refined Plan # improved ".toList).1 ++ w2 ∧
      " # improved ".toList = w3 ++
        (parseCriticReply "Good start #1. ## Refined Plan # improved ".toList).2 ++ w4 ∧
      "Good start #1. ## Refined Plan # improved ".toList =
        List.intercalate assessHeadingL ps ++ markerL ++
          (w3 ++ (parseCriticReply "Good start #1. ## Refined Plan # improved ".toList).2 ++ w4) :=
  parse_reconstruction _ _ _ (by decide) (by decide)

/-- Claim C10: the split happens at the first occurrence of the marker
(any decomposition around the marker has a prefix at least as long, so
later occurrences stay inside the refined plan), and the heading removal
deletes every occurrence of `"## Assessment"` before the marker, not only
a leading one. -/
theorem parse_first_marker_and_remove_all :
    (∀ l b a, splitFirst markerL l = some (b, a) →
      l = b ++ markerL ++ a ∧
      parseCriticReply l = (pyStrip (removeOcc assessHeadingL b), pyStrip a) ∧
      ∀ b' a', l = b' ++ markerL ++ a' → b.length ≤ b'.length) ∧
    (∀ x y z, (∀ c ∈ x, c ≠ '#') → (∀ c ∈ y, c ≠ '#') → (∀ c ∈ z, c ≠ '#') →
      removeOcc assessHeadingL (x ++ assessHeadingL ++ y ++ assessHeadingL ++ z) =
        x ++ y ++ z) := by
  constructor
  · intro l b a h
    obtain ⟨heq, hmin⟩ := splitFirst_some_eq h
    exact ⟨heq, by simp [parseCriticReply, h], hmin⟩
  · intro x y z hx hy hz
    exact removeOcc_two_occurrences hx hy hz

/-- Witness for `parse_first_marker_and_remove_all` at a reply holding two
markers: the split keeps the second marker inside the refined plan. -/
theorem parse_first_marker_and_remove_all_witness :
    "x## Refined Plany## Refined Planz".toList =
      "x".toList ++ markerL ++ "y## Refined Planz".toList ∧
    parseCriticReply "x## Refined Plany## Refined Planz".toList =
      (pyStrip (removeOcc assessHeadingL "x".toList), pyStrip "y## Refined Planz".toList) ∧
    ∀ b' a', "x## Refined Plany## Refined Planz".toList = b' ++ markerL ++ a' →
      ("x".toList).length ≤ b'.length :=
  parse_first_marker_and_remove_all.1 _ _ _ (by decide)

end Planner

namespace Planner

theorem strInfixRefl (v : String) : v.toList <:+: v.toList := List.infix_refl _

theorem strInfixLeft {v s : String} (t : String) (h : v.toList <:+: s.toList) :
    v.toList <:+: (s ++ t).toList := by
  rw [toList_append]
  exact h.trans ⟨[], t.toList, by simp⟩

theorem strInfixRight {v t : String} (s : String) (h : v.toList <:+: t.toList) :
    v.toList <:+: (s ++ t).toList := by
  rw [toList_append]
  exact h.trans ⟨s.toList, [], by simp⟩

/-- Claim C5: for every non-empty topic and each familiarity ordinal 1–3,
the Generator user prompt contains the topic verbatim together with the
selected profile's label, description, and context text. -/
theorem generator_prompt_contains (topic : String) (htopic : topic ≠ "")
    (n : Nat) (f : FamiliarityLevel) (h1 : 1 ≤ n) (h2 : n ≤ 3)
    (hf : FAMILIARITY_LEVELS.get? (n - 1) = some f) :
    topic.toList <:+:
      (GENERATOR_PROMPT_TEMPLATE topic f.label f.description f.context).toList ∧
    f.label.toList <:+:
      (GENERATOR_PROMPT_TEMPLATE topic f.label f.description f.context).toList ∧
    f.description.toList <:+:
      (GENERATOR_PROMPT_TEMPLATE topic f.label f.description f.context).toList ∧
    f.context.toList <:+:
      (GENERATOR_PROMPT_TEMPLATE topic f.label f.description f.context).toList := by
  refine ⟨?_, ?_, ?_, ?_⟩ <;> unfold GENERATOR_PROMPT_TEMPLATE
  · iterate 19 apply strInfixLeft
    apply strInfixRight
    exact strInfixRefl _
  · iterate 16 apply strInfixLeft
    apply strInfixRight
    exact strInfixRefl _
  · iterate 14 apply strInfixLeft
    apply strInfixRight
    exact strInfixRefl _
  · iterate 12 apply strInfixLeft
    apply strInfixRight
    exact strInfixRefl _

/-- Witness for `generator_prompt_contains` at topic `"Redis"` and
ordinal 1 (the Novice profile). -/
theorem generator_prompt_contains_witness :
    ∃ f, FAMILIARITY_LEVELS.get? (1 - 1) = some f ∧
      ("Redis" : String).toList <:+:
        (GENERATOR_PROMPT_TEMPLATE "Redis" f.label f.description f.context).toList ∧
      f.label.toList <:+:
        (GENERATOR_PROMPT_TEMPLATE "Redis" f.label f.description f.context).toList ∧
      f.description.toList <:+:
        (GENERATOR_PROMPT_TEMPLATE "Redis" f.label f.description f.context).toList ∧
      f.context.toList <:+:
        (GENERATOR_PROMPT_TEMPLATE "Redis" f.label f.description f.context).toList :=
  ⟨_, rfl, generator_prompt_contains "Redis" (by decide) 1 _ (by decide) (by decide) rfl⟩

end Planner

namespace Planner

/-- Claim C6: if the Generator's streaming call fails with a connectivity
error, the whole pipeline fails with that same error — propagated
unchanged, with no retry — and the result does not depend on the
single-response (Critic) entry point at all, so no second model
invocation is consulted. -/
theorem pipeline_propagates_connectivity (client : ModelClient) (topic : String)
    (familiarity : FamiliarityLevel) (verbose : Bool)
    (h : client.streamCall GENERATOR_SYSTEM_PROMPT
      (GENERATOR_PROMPT_TEMPLATE topic familiarity.label familiarity.description
        familiarity.context) generatorMaxTokens = .error .apiConnectionError) :
    generate_learning_plan client topic familiarity verbose =
      .error .apiConnectionError ∧
    ∀ cc : String → String → Nat → Except ApiError String,
      generate_learning_plan { streamCall := client.streamCall, createCall := cc }
        topic familiarity verbose = .error .apiConnectionError := by
  constructor
  · simp only [generate_learning_plan, run_generator, h]
  · intro cc
    simp only [generate_learning_plan, run_generator, h]

/-- Witness for `pipeline_propagates_connectivity` with a client whose
stream always fails with a connectivity error. -/
theorem pipeline_propagates_connectivity_witness :
    generate_learning_plan
      { streamCall := fun _ _ _ => .error .apiConnectionError
      , createCall := fun _ _ _ => .ok "## Refined Plan ok" }
      "Redis" { label := "Novice", description := "d", context := "c" } false =
      .error .apiConnectionError ∧
    ∀ cc : String → String → Nat → Except ApiError String,
      generate_learning_plan
        { streamCall := fun _ _ _ => .error .apiConnectionError, createCall := cc }
        "Redis" { label := "Novice", description := "d", context := "c" } false =
        .error .apiConnectionError :=
  pipeline_propagates_connectivity _ _ _ _ rfl

/-- Claim C8: the Critic's single-response call requests a strictly larger
maximum output-token budget (8192) than the Generator's streaming call
(4096). -/
theorem critic_budget_exceeds_generator_budget :
    generatorMaxTokens < criticMaxTokens ∧
    generatorMaxTokens = 4096 ∧ criticMaxTokens = 8192 := by decide

/-- Claim C9: whatever finite sequence of chunks the stream delivers, the
accumulated Generator output is exactly their concatenation in arrival
order — nothing dropped, duplicated, or reordered — and the result is the
same whether or not verbose display is on. -/
theorem run_generator_accumulates (client : ModelClient) (topic : String)
    (familiarity : FamiliarityLevel) (chunks : List String)
    (h : client.streamCall GENERATOR_SYSTEM_PROMPT
      (GENERATOR_PROMPT_TEMPLATE topic familiarity.label familiarity.description
        familiarity.context) generatorMaxTokens = .ok chunks) :
    ∀ verbose, accumulateChunks verbose chunks = chunks ∧
      run_generator client topic familiarity verbose = .ok (String.join chunks) := by
  have hacc : ∀ v : Bool, accumulateChunks v chunks = chunks := by
    intro v
    unfold accumulateChunks
    suffices hgen : ∀ (l acc : List String), l.foldl (fun r t => r ++ [t]) acc = acc ++ l by
      simpa using hgen chunks []
    intro l
    induction l with
    | nil => intro acc; simp
    | cons t ts ih =>
      intro acc
      rw [List.foldl_cons, ih]
      simp
  intro verbose
  refine ⟨hacc verbose, ?_⟩
  simp only [run_generator, h, hacc]

/-- Witness for `run_generator_accumulates` with a concrete two-chunk
stream, in verbose mode. -/
theorem run_generator_accumulates_witness :
    accumulateChunks true ["Day 1:", " learn Redis"] = ["Day 1:", " learn Redis"] ∧
    run_generator
      { streamCall := fun _ _ _ => .ok ["Day 1:", " learn Redis"]
      , createCall := fun _ _ _ => .ok "" }
      "Redis" { label := "Novice", description := "d", context := "c" } true =
      .ok (String.join ["Day 1:", " learn Redis"]) :=
  run_generator_accumulates _ _ _ _ rfl true

end Planner

namespace Planner

/-- Witness for `slugify_spec`: on the documented example the slug starts
with `'d'`, a non-hyphen character. -/
theorem slugify_spec_witness :
    slugify "Docker Compose & Kubernetes!".toList =
      'd' :: "ocker-compose-kubernetes".toList ∧ ('d' : Char) ≠ '-' :=
  ⟨by decide, (slugify_spec "Docker Compose & Kubernetes!".toList).2.2.1 'd'
    "ocker-compose-kubernetes".toList (by decide)⟩

end Planner
